import Mathlib

/-!
Verification of the pyenvgen generation engine and storage merge layer.

The development shallowly embeds the Python sources:
- `src/pyenvgen/schema.py` (data model),
- `src/pyenvgen/generation/__init__.py` (Jinja dependency extraction,
  topological ordering, `generate_value` / `generate_env`),
- `src/pyenvgen/generation/openssl.py` (crypto rule dispatch),
- `src/pyenvgen/storage/*.py` (stdout, dotenv, json, toml, yaml, komodo).

External libraries (jinja2, graphlib, subprocess, cryptography, tomllib,
json, yaml) are modelled at their interface:
- a Jinja template string is embedded as its parsed form, an interleaving of
  literal chunks and variable references (the only constructs the repository
  relies on for dependency analysis and rendering); rendering is strict, as
  with jinja2.StrictUndefined;
- graphlib.TopologicalSorter.static_order is embedded as a Kahn-style
  saturation loop; on a cycle it reports the set of unprocessable nodes
  (a superset of the cycle members reported by graphlib's CycleError);
- subprocess and the cryptography primitives are injected as oracle
  functions, as the spec's design notes themselves recommend;
- whole-document formats (json/toml/yaml) are modelled at the level of their
  flat top-level key mapping, since the repository delegates parsing and
  serialization wholesale to the external library.
-/

set_option maxRecDepth 8192

namespace PyEnvGen

/-! ## Jinja templates (external jinja2, modelled at the parsed level) -/

/-- One parsed element of a Jinja template string: a literal chunk or a
substitution marker referencing a variable name. -/
inductive TItem where
  | lit (s : String)
  | var (n : String)
deriving DecidableEq, Repr

/-- A Jinja template string in parsed form. -/
abbrev Template := List TItem

/-- jinja2.meta.find_undeclared_variables: the set of names referenced by the
template; jinja2 returns a set, embedded as a duplicate-free list. -/
def templateRefs (t : Template) : List String :=
  (t.filterMap fun item =>
    match item with
    | .lit _ => none
    | .var n => some n).dedup

/-- Render a template against already-produced values, left to right; as with
jinja2.StrictUndefined, a reference to a name absent from the mapping is an
error carrying the missing name (`_render_string` in generation/__init__.py
with jinja2 semantics). -/
def renderTemplate (t : Template) (existing : List (String × String)) :
    Except String String :=
  match t with
  | [] => .ok ""
  | .lit s :: rest =>
    match renderTemplate rest existing with
    | .ok out => .ok (s ++ out)
    | .error e => .error e
  | .var n :: rest =>
    match existing.lookup n with
    | some v =>
      match renderTemplate rest existing with
      | .ok out => .ok (v ++ out)
      | .error e => .error e
    | none => .error n

/-! ## Schema model (src/pyenvgen/schema.py) -/

/-- VarType: supported environment variable types. -/
inductive VarType where
  | str
  | int
  | float
  | bool
deriving DecidableEq, Repr

/-- A value in OpenSSLGeneration.args before rendering: the schema allows
arbitrary values, of which the repository's code paths distinguish strings
(Jinja-rendered) from everything else (passed through; modelled by the
integer case used for key_size / length). -/
inductive ArgVal where
  | str (t : Template)
  | int (n : Int)
deriving DecidableEq, Repr

/-- GenerationRule: the discriminated union from schema.py.  The source file
declares exactly the three variants DefaultGeneration, CommandGeneration and
OpenSSLGeneration (no TemplateGeneration exists in schema.py, although
generation/template.py and tests/generation/test_template.py import one). -/
inductive GenerationRule where
  | DefaultGeneration (value : Template)
  | CommandGeneration (command : Template)
  | OpenSSLGeneration (command : Template) (args : List (String × ArgVal))
deriving DecidableEq, Repr

/-- The value of the `rule` discriminator field of each variant. -/
def ruleDiscriminator : GenerationRule → String
  | .DefaultGeneration _ => "default"
  | .CommandGeneration _ => "command"
  | .OpenSSLGeneration _ _ => "openssl"

/-- VariableSchema: full definition of a single environment variable.
The validation constraints are consumed only by the external marshmallow
validator (excluded collaborator) and are not modelled. -/
structure VariableSchema where
  type : VarType := .str
  generation : GenerationRule
  internal : Bool := false
  description : String := ""
deriving DecidableEq, Repr

/-- EnvSchema: the root schema.  Python's dict is embedded as an
insertion-ordered association list (field `vars`, for the Python attribute
`variables`); key uniqueness (a dict invariant) is carried as a Nodup
hypothesis where theorems need it. -/
structure EnvSchema where
  vars : List (String × VariableSchema)
deriving DecidableEq, Repr

/-- The declared variable names, in declaration order. -/
def schemaNames (schema : EnvSchema) : List String :=
  schema.vars.map Prod.fst

/-! ## Jinja dependency extraction (generation/__init__.py) -/

/-- `_jinja_deps`: names referenced in a template, intersected with the set of
declared schema variable names. -/
def jinjaDeps (t : Template) (allNames : List String) : List String :=
  (templateRefs t).filter (fun r => allNames.contains r)

/-- `_rule_template_strings`: all string fields of a rule that may contain
Jinja templates (for openssl: the command plus every string-valued arg). -/
def ruleTemplateStrings : GenerationRule → List Template
  | .DefaultGeneration value => [value]
  | .CommandGeneration command => [command]
  | .OpenSSLGeneration command args =>
    command :: args.filterMap (fun kv =>
      match kv.2 with
      | .str t => some t
      | .int _ => none)

/-- `_rule_jinja_deps`: union of the Jinja dependencies of all template
strings of a rule. -/
def ruleJinjaDeps (rule : GenerationRule) (allNames : List String) :
    List String :=
  ((ruleTemplateStrings rule).flatMap (fun t => jinjaDeps t allNames)).dedup

/-- The dependency edge relation of a schema: `DependsOn schema n x` holds
when some declaration of `n` has a rule whose template strings reference the
declared name `x`. -/
def DependsOn (schema : EnvSchema) (n x : String) : Prop :=
  ∃ v, (n, v) ∈ schema.vars ∧
    x ∈ ruleJinjaDeps v.generation (schemaNames schema)

/-! ## Python string helpers (str.strip and friends, ASCII whitespace) -/

/-- Python's default whitespace set, restricted to ASCII (the repository's
schemas and files use ASCII whitespace only). -/
def pyIsSpace (c : Char) : Bool :=
  c = ' ' || c = '\t' || c = '\n' || c = '\r' || c = '\x0b' || c = '\x0c'

/-- str.lstrip() with the default whitespace set. -/
def pyLStripStr (s : String) : String :=
  String.mk (s.data.dropWhile pyIsSpace)

/-- str.rstrip() with the default whitespace set. -/
def pyRStripStr (s : String) : String :=
  String.mk ((s.data.reverse.dropWhile pyIsSpace).reverse)

/-- str.strip() with the default whitespace set. -/
def pyStripStr (s : String) : String :=
  pyRStripStr (pyLStripStr s)

/-! ## Cryptographic material rules (generation/openssl.py)

The cryptography, base64 and os.urandom primitives are external: the
embedding computes, per call, which primitive and which output serialization
the source selects (a `MaterialRequest`), or the error it raises; the actual
key bytes are supplied by an injected oracle. -/

/-- A rendered value in OpenSSLGeneration.args: a string (after Jinja
rendering) or a non-string value passed through, modelled by the integer
case used for key_size / length. -/
inductive OArg where
  | str (s : String)
  | int (n : Int)
deriving DecidableEq, Repr

/-- Python `==` between an argument value and a string literal (False for a
non-string value). -/
def oargEqStr (a : OArg) (s : String) : Bool :=
  match a with
  | .str t => t = s
  | .int _ => false

/-- dict.get(key, default) on a rendered args mapping. -/
def argGet (args : List (String × OArg)) (key : String) (dflt : OArg) :
    OArg :=
  (args.lookup key).getD dflt

/-- int(x) on an argument value: identity on ints; parse on strings
(modelled by String.toInt? after stripping whitespace; Python additionally
accepts underscores between digits).  None models the ValueError int()
raises on an unparsable string. -/
def pyIntOfArg : OArg → Option Int
  | .int n => some n
  | .str s => (pyStripStr s).toInt?

/-- The primitive + output-serialization combinations generation/openssl.py
can request from the external cryptography/base64/os libraries. -/
inductive MaterialRequest where
  | rsaPem (keySize : Int)
  | rsaDerB64 (keySize : Int)
  | ecPem (curve : String)
  | ecDerB64 (curve : String)
  | ed25519Pem
  | ed25519RawB64
  | x25519Pem
  | x25519RawB64
  | fernet
  | randomHex (length : Int)
  | randomBase64 (length : Int)
  | randomBase64url (length : Int)
deriving DecidableEq, Repr

/-- The failures generation/openssl.py raises (each as a ValueError whose
message interpolates exactly the data carried here). -/
inductive CryptoGenerationError where
  | unsupportedCommand (got : String) (supported : List String)
  | unsupportedCurve (got : OArg) (supported : List String)
  | unsupportedRandomEncoding (got : OArg)
  | intCast (got : OArg)
deriving DecidableEq, Repr

/-- The keys of the `_COMMANDS` dispatch table, in declaration order. -/
def supportedCommands : List String :=
  ["rsa", "ec", "ed25519", "x25519", "fernet", "random"]

/-- The keys of the `_EC_CURVES` table, in declaration order. -/
def ecCurveNames : List String :=
  ["secp256r1", "secp384r1", "secp521r1", "secp256k1"]

/-- `_pem_or_der_b64`: PEM when the encoding name equals "pem", otherwise —
for any other value whatsoever — base64-encoded DER. -/
def pemOrDerB64 (pemReq derReq : MaterialRequest) (encodingName : OArg) :
    MaterialRequest :=
  if oargEqStr encodingName "pem" then pemReq else derReq

/-- `_rsa`: key_size (default 2048) through int(), encoding default "pem". -/
def rsaRequest (args : List (String × OArg)) :
    Except CryptoGenerationError MaterialRequest :=
  match pyIntOfArg (argGet args "key_size" (.int 2048)) with
  | none => .error (.intCast (argGet args "key_size" (.int 2048)))
  | some keySize =>
    .ok (pemOrDerB64 (.rsaPem keySize) (.rsaDerB64 keySize)
      (argGet args "encoding" (.str "pem")))

/-- `_ec`: curve default "secp256r1", rejected with the supported list when
not a key of `_EC_CURVES`; encoding default "pem" via `_pem_or_der_b64`. -/
def ecRequest (args : List (String × OArg)) :
    Except CryptoGenerationError MaterialRequest :=
  match argGet args "curve" (.str "secp256r1") with
  | .str s =>
    if ecCurveNames.contains s then
      .ok (pemOrDerB64 (.ecPem s) (.ecDerB64 s)
        (argGet args "encoding" (.str "pem")))
    else .error (.unsupportedCurve (.str s) ecCurveNames)
  | .int n => .error (.unsupportedCurve (.int n) ecCurveNames)

/-- `_ed25519`: PEM when encoding equals "pem", raw base64 otherwise. -/
def ed25519Request (args : List (String × OArg)) :
    Except CryptoGenerationError MaterialRequest :=
  .ok (if oargEqStr (argGet args "encoding" (.str "pem")) "pem" then
    .ed25519Pem else .ed25519RawB64)

/-- `_x25519`: default encoding "raw_b64"; PEM only when encoding equals
"pem". -/
def x25519Request (args : List (String × OArg)) :
    Except CryptoGenerationError MaterialRequest :=
  .ok (if oargEqStr (argGet args "encoding" (.str "raw_b64")) "pem" then
    .x25519Pem else .x25519RawB64)

/-- `_fernet`: ignores its args. -/
def fernetRequest (_args : List (String × OArg)) :
    Except CryptoGenerationError MaterialRequest :=
  .ok .fernet

/-- `_random`: length (default 32) through int(), then encoding dispatch
with a hard failure naming the offending value for anything outside
hex / base64 / base64url. -/
def randomRequest (args : List (String × OArg)) :
    Except CryptoGenerationError MaterialRequest :=
  match pyIntOfArg (argGet args "length" (.int 32)) with
  | none => .error (.intCast (argGet args "length" (.int 32)))
  | some length =>
    if oargEqStr (argGet args "encoding" (.str "hex")) "hex" then
      .ok (.randomHex length)
    else if oargEqStr (argGet args "encoding" (.str "hex")) "base64" then
      .ok (.randomBase64 length)
    else if oargEqStr (argGet args "encoding" (.str "hex")) "base64url" then
      .ok (.randomBase64url length)
    else .error (.unsupportedRandomEncoding (argGet args "encoding" (.str "hex")))

/-- An OpenSSLGeneration rule after Jinja rendering of its string fields. -/
structure OpenSSLRendered where
  command : String
  args : List (String × OArg)
deriving DecidableEq, Repr

/-- `generate_openssl`'s dispatch: a command outside `_COMMANDS` is a hard
failure carrying the offending name and the supported set; otherwise the
per-command generator computes the material request or its own failure. -/
def opensslRequest (rule : OpenSSLRendered) :
    Except CryptoGenerationError MaterialRequest :=
  match rule.command with
  | "rsa" => rsaRequest rule.args
  | "ec" => ecRequest rule.args
  | "ed25519" => ed25519Request rule.args
  | "x25519" => x25519Request rule.args
  | "fernet" => fernetRequest rule.args
  | "random" => randomRequest rule.args
  | other => .error (.unsupportedCommand other supportedCommands)

/-- `generate_openssl` with the external cryptographic material supplied by
an injected oracle keyed by the computed request. -/
def generateOpenssl (material : MaterialRequest → String)
    (rule : OpenSSLRendered) : Except CryptoGenerationError String :=
  match opensslRequest rule with
  | .ok req => .ok (material req)
  | .error e => .error e

/-! ## Topological ordering (`_topological_order`, graphlib embedded as Kahn) -/

/-- The readiness check of the Kahn loop: every dependency of the entry has
already been emitted. -/
def kahnReady (done : List String) (q : String × List String) : Bool :=
  q.2.all (fun d => done.contains d)

/-- One saturation pass of Kahn's algorithm, with fuel.  `pending` is the
list of (name, dependency list) entries still to order; `done` the names
already emitted.  When no pending entry has all its dependencies emitted,
the loop is stuck: it reports the names of the unprocessable entries,
modelling graphlib's CycleError (whose reported cycle consists of such
nodes) wrapped into CircularDependencyError by `_topological_order`. -/
def kahnAux : Nat → List (String × List String) → List String →
    Except (List String) (List String)
  | _, [], done => .ok done
  | 0, q :: pending, _ => .error ((q :: pending).map Prod.fst)
  | fuel + 1, q :: pending, done =>
    if ((q :: pending).filter (kahnReady done)).isEmpty then
      .error ((q :: pending).map Prod.fst)
    else
      kahnAux fuel ((q :: pending).filter (fun p => ! kahnReady done p))
        (done ++ ((q :: pending).filter (kahnReady done)).map Prod.fst)

/-- The dependency map built by `_topological_order`: for every declared
variable, the declared names its rule's template strings reference. -/
def schemaDeps (schema : EnvSchema) : List (String × List String) :=
  schema.vars.map (fun nv =>
    (nv.1, ruleJinjaDeps nv.2.generation (schemaNames schema)))

/-- `_topological_order`: a safe generation order for the schema's variables,
or the list of names reported by the raised CircularDependencyError. -/
def topologicalOrder (schema : EnvSchema) :
    Except (List String) (List String) :=
  kahnAux (schemaDeps schema).length (schemaDeps schema) []

/-! ## Rule rendering and the generation engine (generation/__init__.py) -/

/-- A generation rule after `_render_rule` has Jinja-rendered every string
field. -/
inductive RenderedRule where
  | DefaultGeneration (value : String)
  | CommandGeneration (command : String)
  | OpenSSLGeneration (command : String) (args : List (String × OArg))
deriving DecidableEq, Repr

/-- Rendering of an openssl args mapping: string values are Jinja-rendered,
other values pass through (`_render_rule`'s dict comprehension). -/
def renderArgs (args : List (String × ArgVal))
    (existing : List (String × String)) :
    Except String (List (String × OArg)) :=
  match args with
  | [] => .ok []
  | (k, .str t) :: rest =>
    match renderTemplate t existing with
    | .error e => .error e
    | .ok v =>
      match renderArgs rest existing with
      | .error e => .error e
      | .ok vs => .ok ((k, .str v) :: vs)
  | (k, .int n) :: rest =>
    match renderArgs rest existing with
    | .error e => .error e
    | .ok vs => .ok ((k, .int n) :: vs)

/-- `_render_rule`: a copy of the rule with all string fields Jinja-rendered
against the already-produced values; the error carries the missing name of a
failed strict render (jinja2's UndefinedError, the spec's
TemplateRenderError). -/
def renderRule (rule : GenerationRule) (existing : List (String × String)) :
    Except String RenderedRule :=
  match rule with
  | .DefaultGeneration value =>
    match renderTemplate value existing with
    | .ok v => .ok (.DefaultGeneration v)
    | .error e => .error e
  | .CommandGeneration command =>
    match renderTemplate command existing with
    | .ok c => .ok (.CommandGeneration c)
    | .error e => .error e
  | .OpenSSLGeneration command args =>
    match renderTemplate command existing with
    | .error e => .error e
    | .ok c =>
      match renderArgs args existing with
      | .error e => .error e
      | .ok rendered => .ok (.OpenSSLGeneration c rendered)

/-- The failures of the generation engine (the repository's exception
taxonomy at this layer): a strict-render failure, a non-zero external
command, a crypto failure, the CircularDependencyError wrapped by
`generate_env`, and the KeyError Python would raise on an undeclared name
lookup (unreachable from `generate_env`, whose order lists declared names
only). -/
inductive GenError where
  | templateRender (missing : String)
  | commandExecution (command : String)
  | cryptoGeneration (e : CryptoGenerationError)
  | circularDependency (names : List String)
  | keyError (name : String)
deriving DecidableEq, Repr

/-- `generate_value`: render all string fields of the rule, then dispatch.
The external process runner (subprocess.run with shell=True, check=True) is
injected: it yields the captured stdout, or none for a non-zero exit; the
result is stripped (`generate_command`).  `generate_default` returns the
rendered value verbatim. -/
def generateValue (runner : String → Option String)
    (material : MaterialRequest → String) (rule : GenerationRule)
    (existing : List (String × String)) : Except GenError String :=
  match renderRule rule existing with
  | .error missing => .error (.templateRender missing)
  | .ok (.DefaultGeneration value) => .ok value
  | .ok (.CommandGeneration command) =>
    match runner command with
    | some out => .ok (pyStripStr out)
    | none => .error (.commandExecution command)
  | .ok (.OpenSSLGeneration command args) =>
    match generateOpenssl material ⟨command, args⟩ with
    | .ok v => .ok v
    | .error e => .error (.cryptoGeneration e)

/-- The per-name loop of `generate_env`: an override pre-empts generation
entirely; otherwise the rule of the declared variable is executed against
the values produced so far. -/
def generateEnvAux (runner : String → Option String)
    (material : MaterialRequest → String)
    (overrides : List (String × String))
    (schemaVars : List (String × VariableSchema)) :
    List String → List (String × String) →
    Except GenError (List (String × String))
  | [], result => .ok result
  | name :: rest, result =>
    match overrides.lookup name with
    | some v => generateEnvAux runner material overrides schemaVars rest
        (result ++ [(name, v)])
    | none =>
      match schemaVars.lookup name with
      | some vs =>
        match generateValue runner material vs.generation result with
        | .ok value => generateEnvAux runner material overrides schemaVars rest
            (result ++ [(name, value)])
        | .error e => .error e
      | none => .error (.keyError name)

/-- `generate_env`: topological order, then the per-name loop starting from
an empty result mapping. -/
def generateEnv (runner : String → Option String)
    (material : MaterialRequest → String) (schema : EnvSchema)
    (overrides : List (String × String)) :
    Except GenError (List (String × String)) :=
  match topologicalOrder schema with
  | .error names => .error (.circularDependency names)
  | .ok order =>
    generateEnvAux runner material overrides schema.vars order []

/-! ## str.splitlines(keepends=True) and "".join -/

/-- A Python universal-newline line boundary character. -/
def isLineBreak (c : Char) : Bool :=
  c = '\n' || c = '\r' || c = '\x0b' || c = '\x0c' ||
  c = '\x1c' || c = '\x1d' || c = '\x1e' || c = '\x85' ||
  c = '\u2028' || c = '\u2029'

/-- One character of the splitlines scan.  The state is (collected lines,
current line, a pending carriage return that may pair with a following
newline). -/
def splitStep (st : List (List Char) × List Char × Bool) (c : Char) :
    List (List Char) × List Char × Bool :=
  let lines := st.1
  let cur := st.2.1
  let pending := st.2.2
  if pending then
    if c = '\n' then (lines ++ [cur ++ ['\r', '\n']], [], false)
    else if c = '\r' then (lines ++ [cur ++ ['\r']], [], true)
    else if isLineBreak c then (lines ++ [cur ++ ['\r'], [c]], [], false)
    else (lines ++ [cur ++ ['\r']], [c], false)
  else
    if c = '\r' then (lines, cur, true)
    else if isLineBreak c then (lines ++ [cur ++ [c]], [], false)
    else (lines, cur ++ [c], false)

/-- str.splitlines(keepends=True) over the characters of the string. -/
def splitlinesKeep (cs : List Char) : List (List Char) :=
  let st := cs.foldl splitStep ([], [], false)
  if st.2.2 then st.1 ++ [st.2.1 ++ ['\r']]
  else if st.2.1.isEmpty then st.1 else st.1 ++ [st.2.1]

/-- str.splitlines(keepends=True). -/
def splitlinesKeepends (s : String) : List String :=
  (splitlinesKeep s.data).map String.mk

/-! ## DotEnvStorage (storage/dotenv.py) -/

/-- The `[A-Za-z_]` character class. -/
def isIdentStart (c : Char) : Bool :=
  c.isAlpha || c = '_'

/-- The `[A-Za-z0-9_]` character class. -/
def isIdentChar (c : Char) : Bool :=
  isIdentStart c || c.isDigit

/-- Parse `[A-Za-z_][A-Za-z0-9_]*\s*=` at the head of the characters,
capturing the identifier. -/
def parseIdentEq (cs : List Char) : Option String :=
  match cs with
  | [] => none
  | c :: rest =>
    if isIdentStart c then
      match (rest.dropWhile isIdentChar).dropWhile pyIsSpace with
      | '=' :: _ => some (String.mk (c :: rest.takeWhile isIdentChar))
      | _ => none
    else none

/-- Parse the regex's optional `export\s+` prefix, returning the remaining
characters when present. -/
def parseExportRest (cs : List Char) : Option (List Char) :=
  match cs with
  | 'e' :: 'x' :: 'p' :: 'o' :: 'r' :: 't' :: c :: rest =>
    if pyIsSpace c then some (rest.dropWhile pyIsSpace) else none
  | _ => none

/-- `_DOTENV_LINE_RE.match(line)`: the key captured by
`(?:export[\s]+)?([A-Za-z_][A-Za-z0-9_]*)[\s]*=` anchored at the start of
the line, with the engine's backtracking over the optional export group
(when consuming `export` does not lead to a full match, the group is
dropped and the identifier is re-read from the start). -/
def dotenvLineKey (line : String) : Option String :=
  match parseExportRest line.data with
  | some rest =>
    match parseIdentEq rest with
    | some key => some key
    | none => parseIdentEq line.data
  | none => parseIdentEq line.data

/-- The replacement's export check: the lstripped line starts with the
eight characters `export` + space (a literal space — a tab after `export`
matches the regex but fails this check). -/
def dotenvExportFlag (line : String) : Bool :=
  "export ".data.isPrefixOf (pyLStripStr line).data

/-- The per-line loop of DotEnvStorage.store, carrying `new_lines` and the
`handled` key set. -/
def dotenvStoreAux (public : List (String × String)) :
    List String → List String → List String → List String
  | [], newLines, handled =>
    newLines ++ (public.filter (fun kv => ! handled.contains kv.1)).map
      (fun kv => kv.1 ++ "=" ++ kv.2 ++ "\n")
  | line :: rest, newLines, handled =>
    match dotenvLineKey line with
    | some key =>
      match public.lookup key with
      | some v =>
        dotenvStoreAux public rest
          (newLines ++ [(if dotenvExportFlag line then "export " else "") ++
            key ++ "=" ++ v ++ "\n"])
          (handled ++ [key])
      | none => dotenvStoreAux public rest (newLines ++ [line]) handled
    | none => dotenvStoreAux public rest (newLines ++ [line]) handled

/-- DotEnvStorage.store's merge, at line level. -/
def dotenvStoreLines (public : List (String × String))
    (lines : List String) : List String :=
  dotenvStoreAux public lines [] []

/-- DotEnvStorage.store at the level of the target's text (read_text →
splitlines(keepends=True) → merge → "".join → write_text); a nonexistent
target reads as empty content. -/
def dotenvStoreContent (public : List (String × String)) (content : String) :
    String :=
  String.join (dotenvStoreLines public (splitlinesKeepends content))

/-! ## Storage adapters: the load half of the protocol (storage/__init__.py)

The StorageBackend protocol requires both `load` and `store`; which classes
actually define a `load` method is recorded here from the six adapter
source files. -/

/-- The storage backends the factory in storage/__init__.py can produce. -/
inductive StorageAdapter where
  | stdout
  | dotenv
  | json
  | toml
  | yaml
  | komodo
deriving DecidableEq, Repr

/-- Whether the adapter's class defines the protocol's `load` method:
StdoutStorage.load, JsonStorage.load and KomodoStorage.load exist in the
sources; DotEnvStorage, TomlStorage and YamlStorage define only `store`. -/
def implementsLoad : StorageAdapter → Bool
  | .stdout => true
  | .dotenv => false
  | .json => true
  | .toml => false
  | .yaml => false
  | .komodo => true

/-! ## Public values and the whole-document merge (storage/__init__.py,
json.py, toml.py, yaml.py, stdout.py) -/

/-- The internal flag of a declared variable (false for an undeclared name,
where the source's dict indexing would raise KeyError — unreachable in the
pipeline, whose value maps carry exactly the declared names). -/
def internalOf (schema : EnvSchema) (name : String) : Bool :=
  ((schema.vars.lookup name).map VariableSchema.internal).getD false

/-- `_public_values`: only the non-internal variables (the values of this
embedding are already strings; the source also applies str()). -/
def publicValues (values : List (String × String)) (schema : EnvSchema) :
    List (String × String) :=
  values.filter (fun kv => ! internalOf schema kv.1)

/-- StdoutStorage.store: the lines printed to standard output. -/
def stdoutStoreLines (values : List (String × String)) (schema : EnvSchema) :
    List String :=
  (publicValues values schema).map (fun kv => kv.1 ++ "=" ++ kv.2)

/-- dict.update on a flat string-keyed document: existing keys keep their
position with the updated value, new keys are appended in update order
(update maps come from Python dicts and are duplicate-free). -/
def pyDictUpdate (existing updates : List (String × String)) :
    List (String × String) :=
  existing.map (fun kv =>
    match updates.lookup kv.1 with
    | some v => (kv.1, v)
    | none => kv) ++
  updates.filter (fun kv => ! (existing.map Prod.fst).contains kv.1)

/-- JsonStorage / TomlStorage / YamlStorage .store at the level of the
document's flat top-level mapping (parsing and re-serialization are
delegated wholesale to the external json/tomllib+tomli_w/yaml libraries):
the existing top-level keys shallow-merged under the public values. -/
def wholeDocStoreMap (values : List (String × String)) (schema : EnvSchema)
    (existing : List (String × String)) : List (String × String) :=
  pyDictUpdate existing (publicValues values schema)

/-! ## KomodoStorage (storage/komodo.py) -/

/-- str.count of one character on a stripped line. -/
def countChar (cs : List Char) (c : Char) : Nat :=
  (cs.filter (fun x => x = c)).length

/-- `^\[\[\s*variable\s*\]\]` on the stripped line (re.match is a prefix
match, so trailing content is allowed). -/
def isVariableTablesHeader (cs : List Char) : Bool :=
  match cs with
  | '[' :: '[' :: rest =>
    match rest.dropWhile pyIsSpace with
    | 'v' :: 'a' :: 'r' :: 'i' :: 'a' :: 'b' :: 'l' :: 'e' :: rest2 =>
      match rest2.dropWhile pyIsSpace with
      | ']' :: ']' :: _ => true
      | _ => false
    | _ => false
  | _ => false

/-- `^variable\s*=` on the stripped line. -/
def isInlineVariableStart (cs : List Char) : Bool :=
  match cs with
  | 'v' :: 'a' :: 'r' :: 'i' :: 'a' :: 'b' :: 'l' :: 'e' :: rest =>
    match rest.dropWhile pyIsSpace with
    | '=' :: _ => true
    | _ => false
  | _ => false

/-- The three scanner modes of `_strip_variable_sections`. -/
inductive KomodoMode where
  | none
  | arrayOfTables
  | inlineArray
deriving DecidableEq, Repr

/-- One line of the three-state scanner: the next (mode, bracket depth) and
the lines kept (the line itself, or nothing when it belongs to a variable
block). -/
def stripStep (st : KomodoMode × Int) (line : String) :
    (KomodoMode × Int) × List String :=
  let stripped := (pyStripStr line).data
  match st.1 with
  | .none =>
    if (['[', '['].isPrefixOf stripped) && isVariableTablesHeader stripped then
      ((.arrayOfTables, st.2), [])
    else if isInlineVariableStart stripped then
      let depth : Int :=
        (countChar stripped '[' : Int) - (countChar stripped ']' : Int)
      if depth ≤ 0 then ((.none, depth), []) else ((.inlineArray, depth), [])
    else ((.none, st.2), [line])
  | .arrayOfTables =>
    if ['[', '['].isPrefixOf stripped then
      if isVariableTablesHeader stripped then ((.arrayOfTables, st.2), [])
      else ((.none, st.2), [line])
    else if ['['].isPrefixOf stripped then ((.none, st.2), [line])
    else ((.arrayOfTables, st.2), [])
  | .inlineArray =>
    let depth : Int :=
      st.2 + (countChar stripped '[' : Int) - (countChar stripped ']' : Int)
    if depth ≤ 0 then ((.none, depth), []) else ((.inlineArray, depth), [])

/-- The scanner over the remaining lines, from a given state. -/
def stripVariableLinesAux (st : KomodoMode × Int) :
    List String → List String
  | [] => []
  | line :: rest =>
    (stripStep st line).2 ++ stripVariableLinesAux (stripStep st line).1 rest

/-- `_strip_variable_sections` at line level, from the initial state. -/
def stripVariableLines (lines : List String) : List String :=
  stripVariableLinesAux (.none, 0) lines

/-- `_strip_variable_sections` on raw text. -/
def stripVariableSections (text : String) : String :=
  String.join (stripVariableLines (splitlinesKeepends text))

/-- One escaped character of a TOML basic string (`_TOML_ESCAPES`). -/
def tomlEscapeChar (c : Char) : List Char :=
  if c = '\\' then ['\\', '\\']
  else if c = '"' then ['\\', '"']
  else if c = '\n' then ['\\', 'n']
  else if c = '\r' then ['\\', 'r']
  else if c = '\t' then ['\\', 't']
  else [c]

/-- `_toml_str`: the quoted TOML basic string. -/
def tomlStr (s : String) : String :=
  "\"" ++ String.mk (s.data.flatMap tomlEscapeChar) ++ "\""

/-- `_variable_entry`: one [[variable]] array-of-tables entry. -/
def variableEntry (name value : String) : String :=
  "[[variable]]\nname = " ++ tomlStr name ++ "\nvalue = " ++ tomlStr value

/-- KomodoStorage.store at content level: strip every variable section,
rstrip, then join the kept text and one freshly serialized entry per
public value with blank-line separators and a trailing newline. -/
def komodoStoreContent (public : List (String × String)) (content : String) :
    String :=
  let baseText := pyRStripStr (stripVariableSections content)
  let newEntries := public.map (fun kv => variableEntry kv.1 kv.2)
  let parts := (if baseText = "" then [] else [baseText]) ++ newEntries
  String.intercalate "\n\n" parts ++ "\n"

/-- KomodoStorage.store from a value map and schema. -/
def komodoStore (values : List (String × String)) (schema : EnvSchema)
    (content : String) : String :=
  komodoStoreContent (publicValues values schema) content

/-- DotEnvStorage.store from a value map and schema. -/
def dotenvStore (values : List (String × String)) (schema : EnvSchema)
    (content : String) : String :=
  dotenvStoreContent (publicValues values schema) content

/-! ## Spec-side description of the dotenv merge (for the refinement
theorem of the line-oriented store) -/

/-- One line of the dotenv merge as the (amended) claim describes it: a
line matching [export ]KEY= with KEY public is replaced in place, keeping
an `export ` prefix exactly when written as export + space; any other line
passes through byte-identical. -/
def dotenvSpecLine (public : List (String × String)) (line : String) :
    String :=
  match dotenvLineKey line with
  | some key =>
    match public.lookup key with
    | some v =>
      (if dotenvExportFlag line then "export " else "") ++
        key ++ "=" ++ v ++ "\n"
    | none => line
  | none => line

/-- The public keys matched (and hence replaced) by some existing line. -/
def dotenvMatchedKeys (public : List (String × String))
    (lines : List String) : List String :=
  lines.filterMap (fun line =>
    match dotenvLineKey line with
    | some key => if (public.lookup key).isSome then some key else none
    | none => none)

/-- The dotenv merge as the (amended) claim states it: every original line
replaced in place or passed through byte-identical, then the public entries
never matched appended after all original lines, one per line, in mapping
order. -/
def dotenvSpecStore (public : List (String × String)) (lines : List String) :
    List String :=
  lines.map (dotenvSpecLine public) ++
    (public.filter (fun kv =>
      ! (dotenvMatchedKeys public lines).contains kv.1)).map
      (fun kv => kv.1 ++ "=" ++ kv.2 ++ "\n")

/-! ### Concrete schemas from the spec's scenarios -/

/-- Scenario 2 schema: HOST is the literal "localhost", DSN composes a DSN
string referencing HOST (realized in the code, as in its own CLI tests, as a
default rule whose value is a Jinja template). -/
def scenario2Schema : EnvSchema :=
  ⟨[("HOST", { generation := .DefaultGeneration [.lit "localhost"] }),
    ("DSN", { generation :=
      .DefaultGeneration [.lit "postgres://", .var "HOST", .lit "/app"] })]⟩

/-- Scenario 3 schema: A references B and B references A. -/
def scenario3Schema : EnvSchema :=
  ⟨[("A", { generation := .DefaultGeneration [.var "B"] }),
    ("B", { generation := .DefaultGeneration [.var "A"] })]⟩

/-- A single self-referencing variable. -/
def selfRefSchema : EnvSchema :=
  ⟨[("A", { generation := .DefaultGeneration [.var "A"] })]⟩

/-- Scenario 4 schema: only FOO declared (and public). -/
def scenario4Schema : EnvSchema :=
  ⟨[("FOO", { generation := .DefaultGeneration [.lit "new"] })]⟩

/-- Scenario 5 schema: only A declared (and public). -/
def scenario5Schema : EnvSchema :=
  ⟨[("A", { generation := .DefaultGeneration [.lit "new"] })]⟩

/-- Scenario 5 target: an unrelated top-level key and a records block with
the entries A=old and OLD_VAR=x. -/
def scenario5Input : String :=
  "unrelated = \"keep\"\n\n[[variable]]\nname = \"A\"\nvalue = \"old\"\n\n" ++
  "[[variable]]\nname = \"OLD_VAR\"\nvalue = \"x\"\n"

/-- Scenario 5 expected result: the unrelated key unchanged and the records
block holding exactly one entry, A=new. -/
def scenario5Output : String :=
  "unrelated = \"keep\"\n\n[[variable]]\nname = \"A\"\nvalue = \"new\"\n"

/-- A schema with one public and one internal variable, for the
stored-output claims. -/
def internalSchema : EnvSchema :=
  ⟨[("PUBLIC", { generation := .DefaultGeneration [.lit "a"] }),
    ("SECRET",
      { generation := .DefaultGeneration [.lit "b"], internal := true })]⟩

/-! ### Correctness of the Kahn loop -/

/-- On success the loop extends `done` with a permutation of the pending
names, and every dependency of a pending entry is either already in `done`
or placed strictly before its dependent in the emitted suffix. -/
theorem kahnAux_ok_sound :
    ∀ (f : Nat) (pending : List (String × List String)) (done o : List String),
      kahnAux f pending done = .ok o →
      ∃ rest, o = done ++ rest ∧ rest.Perm (pending.map Prod.fst) ∧
        ∀ n ds x, (n, ds) ∈ pending → x ∈ ds →
          x ∈ done ∨ [x, n].Sublist rest := by
  intro f
  induction f with
  | zero =>
    intro pending done o h
    cases pending with
    | nil =>
      rw [kahnAux] at h
      cases h
      exact ⟨[], by simp, by simp, by simp⟩
    | cons q ps => rw [kahnAux] at h; cases h
  | succ fuel ih =>
    intro pending done o h
    cases pending with
    | nil =>
      rw [kahnAux] at h
      cases h
      exact ⟨[], by simp, by simp, by simp⟩
    | cons q ps =>
      rw [kahnAux] at h
      by_cases hrdy :
          ((q :: ps).filter (kahnReady done)).isEmpty = true
      · rw [if_pos hrdy] at h; cases h
      · rw [if_neg hrdy] at h
        obtain ⟨rest2, ho, hperm, hdep⟩ := ih _ _ _ h
        refine ⟨((q :: ps).filter (kahnReady done)).map Prod.fst ++ rest2,
          by simpa [List.append_assoc] using ho, ?_, ?_⟩
        · have hsplit :
              List.Perm
                ((q :: ps).filter (kahnReady done) ++
                  (q :: ps).filter (fun p => ! kahnReady done p))
                (q :: ps) := List.filter_append_perm _ _
          have h1 :
              List.Perm
                (((q :: ps).filter (kahnReady done)).map Prod.fst ++ rest2)
                (((q :: ps).filter (kahnReady done)).map Prod.fst ++
                  ((q :: ps).filter (fun p => ! kahnReady done p)).map Prod.fst) :=
            List.Perm.append_left _ hperm
          have h2 :
              ((q :: ps).filter (kahnReady done)).map Prod.fst ++
                  ((q :: ps).filter (fun p => ! kahnReady done p)).map Prod.fst =
                ((q :: ps).filter (kahnReady done) ++
                  (q :: ps).filter (fun p => ! kahnReady done p)).map Prod.fst := by
            simp
          have h3 := hsplit.map Prod.fst
          exact h1.trans (h2 ▸ h3)
        · intro n ds x hmem hx
          by_cases hr : kahnReady done (n, ds) = true
          · left
            have hall := hr
            simp only [kahnReady, List.all_eq_true] at hall
            simpa using hall x hx
          · have hrf : kahnReady done (n, ds) = false := by
              cases hkr : kahnReady done (n, ds) with
              | false => rfl
              | true => exact absurd hkr hr
            have hmem2 : (n, ds) ∈ (q :: ps).filter (fun p => ! kahnReady done p) :=
              List.mem_filter.2 ⟨hmem, by simp [hrf]⟩
            rcases hdep n ds x hmem2 hx with hdone | hsub
            · rcases List.mem_append.1 hdone with hdone2 | hkey
              · exact Or.inl hdone2
              · right
                have hxs : [x].Sublist
                    (((q :: ps).filter (kahnReady done)).map Prod.fst) :=
                  List.singleton_sublist.2 hkey
                have hnmem : n ∈ rest2 := by
                  have : n ∈
                      ((q :: ps).filter (fun p => ! kahnReady done p)).map Prod.fst :=
                    List.mem_map.2 ⟨(n, ds), hmem2, rfl⟩
                  exact hperm.mem_iff.2 this
                exact hxs.append (List.singleton_sublist.2 hnmem)
            · exact Or.inr (hsub.trans (List.sublist_append_right _ _))

/-- With enough fuel, an error can only arise from a stuck configuration:
the reported list is nonempty and, provided all dependencies point into
`done ++ pending keys`, every reported name has a dependency (in the
original pending list) that is itself reported. -/
theorem kahnAux_error_stuck :
    ∀ (f : Nat) (pending : List (String × List String)) (done e : List String),
      pending.length ≤ f →
      (∀ n ds x, (n, ds) ∈ pending → x ∈ ds →
        x ∈ done ∨ x ∈ pending.map Prod.fst) →
      kahnAux f pending done = .error e →
      e ≠ [] ∧ ∀ m, m ∈ e → ∃ ds x, (m, ds) ∈ pending ∧ x ∈ ds ∧ x ∈ e := by
  intro f
  induction f with
  | zero =>
    intro pending done e hlen hclosed h
    cases pending with
    | nil => rw [kahnAux] at h; cases h
    | cons q ps => simp at hlen
  | succ fuel ih =>
    intro pending done e hlen hclosed h
    cases pending with
    | nil => rw [kahnAux] at h; cases h
    | cons q ps =>
      rw [kahnAux] at h
      by_cases hrdy :
          ((q :: ps).filter (kahnReady done)).isEmpty = true
      · rw [if_pos hrdy] at h
        cases h
        have hstuck : ∀ p, p ∈ (q :: ps) → kahnReady done p = false := by
          intro p hp
          by_contra hne
          have hpt : kahnReady done p = true := by
            cases hkr : kahnReady done p with
            | false => exact absurd hkr hne
            | true => rfl
          have : p ∈ (q :: ps).filter (kahnReady done) :=
            List.mem_filter.2 ⟨hp, hpt⟩
          rw [List.isEmpty_iff] at hrdy
          simp [hrdy] at this
        refine ⟨by simp, ?_⟩
        intro m hm
        obtain ⟨⟨m', ds⟩, hmem, hfst⟩ := List.mem_map.1 hm
        have hmeq : m' = m := hfst
        subst m'
        have hnr := hstuck (m, ds) hmem
        simp only [kahnReady, List.all_eq_false] at hnr
        obtain ⟨x, hx, hxnot⟩ := hnr
        have hxd : x ∉ done := by simpa using hxnot
        rcases hclosed m ds x hmem hx with hdone | hkey
        · exact absurd hdone hxd
        · exact ⟨ds, x, hmem, hx, hkey⟩
      · rw [if_neg hrdy] at h
        have hlt :
            ((q :: ps).filter (fun p => ! kahnReady done p)).length ≤ fuel := by
          have hex : ∃ p, p ∈ (q :: ps) ∧ ¬ (! kahnReady done p) = true := by
            have : (q :: ps).filter (kahnReady done) ≠ [] := by
              intro hnil
              rw [List.isEmpty_iff] at hrdy
              exact hrdy hnil
            obtain ⟨p, hp⟩ := List.exists_mem_of_ne_nil _ this
            have hp2 := List.mem_filter.1 hp
            exact ⟨p, hp2.1, by simp [hp2.2]⟩
          have := (List.length_filter_lt_length_iff_exists
            (l := q :: ps) (p := fun p => ! kahnReady done p)).2 hex
          omega
        have hclosed2 :
            ∀ n ds x,
              (n, ds) ∈ (q :: ps).filter (fun p => ! kahnReady done p) →
              x ∈ ds →
              x ∈ done ++ ((q :: ps).filter (kahnReady done)).map Prod.fst ∨
              x ∈ ((q :: ps).filter (fun p => ! kahnReady done p)).map Prod.fst := by
          intro n ds x hmem hx
          have hmem0 : (n, ds) ∈ (q :: ps) := (List.mem_filter.1 hmem).1
          rcases hclosed n ds x hmem0 hx with hdone | hkey
          · exact Or.inl (List.mem_append.2 (Or.inl hdone))
          · obtain ⟨⟨x', ds'⟩, hmemx, hfst⟩ := List.mem_map.1 hkey
            have hxeq : x' = x := hfst
            subst x'
            by_cases hxr : kahnReady done (x, ds') = true
            · refine Or.inl (List.mem_append.2 (Or.inr ?_))
              exact List.mem_map.2 ⟨(x, ds'), List.mem_filter.2 ⟨hmemx, hxr⟩, rfl⟩
            · refine Or.inr ?_
              have hxf : (! kahnReady done (x, ds')) = true := by
                cases hkr : kahnReady done (x, ds') with
                | false => simp [hkr]
                | true => exact absurd hkr hxr
              exact List.mem_map.2 ⟨(x, ds'), List.mem_filter.2 ⟨hmemx, hxf⟩, rfl⟩
        obtain ⟨hne, hstep⟩ := ih _ _ _ hlt hclosed2 h
        refine ⟨hne, ?_⟩
        intro m hm
        obtain ⟨ds, x, hmem, hx, hxe⟩ := hstep m hm
        exact ⟨ds, x, (List.mem_filter.1 hmem).1, hx, hxe⟩

/-- A finite nonempty set of nodes in which every node has a successor
inside the set contains a node lying on a cycle. -/
theorem exists_cycle_member (S : List String) (R : String → String → Prop)
    (hne : S ≠ []) (hstep : ∀ m, m ∈ S → ∃ x, R m x ∧ x ∈ S) :
    ∃ m, m ∈ S ∧ Relation.TransGen R m m := by
  classical
  have hg : ∀ m : String, ∃ x, m ∈ S → R m x ∧ x ∈ S := by
    intro m
    by_cases hm : m ∈ S
    · obtain ⟨x, hx⟩ := hstep m hm
      exact ⟨x, fun _ => hx⟩
    · exact ⟨m, fun h => absurd h hm⟩
  choose g hgspec using hg
  obtain ⟨m0, hm0⟩ := List.exists_mem_of_ne_nil S hne
  have hmemseq : ∀ k : Nat, g^[k] m0 ∈ S := by
    intro k
    induction k with
    | zero => simpa using hm0
    | succ k ihk =>
      rw [Function.iterate_succ_apply']
      exact (hgspec _ ihk).2
  have hstepseq : ∀ k : Nat, R (g^[k] m0) (g^[k + 1] m0) := by
    intro k
    rw [Function.iterate_succ_apply']
    exact (hgspec _ (hmemseq k)).1
  have hchain : ∀ i j : Nat, i < j →
      Relation.TransGen R (g^[i] m0) (g^[j] m0) := by
    intro i j hij
    induction j with
    | zero => omega
    | succ j ihj =>
      by_cases hje : i = j
      · subst hje
        exact Relation.TransGen.single (hstepseq i)
      · have hij2 : i < j := by omega
        exact (ihj hij2).tail (hstepseq j)
  have hcard : (Finset.range (S.length + 1)).card > S.toFinset.card := by
    have h1 := S.toFinset_card_le
    simp only [Finset.card_range]
    omega
  have hmaps : ∀ a, a ∈ Finset.range (S.length + 1) →
      g^[a] m0 ∈ S.toFinset := by
    intro a _
    exact List.mem_toFinset.2 (hmemseq a)
  obtain ⟨a, _, b, _, hab, heq⟩ :=
    Finset.exists_ne_map_eq_of_card_lt_of_maps_to hcard hmaps
  rcases hab.lt_or_lt with hlt | hlt
  · exact ⟨g^[a] m0, hmemseq a, heq ▸ hchain a b hlt⟩
  · exact ⟨g^[b] m0, hmemseq b, heq ▸ hchain b a hlt⟩

/-- In a duplicate-free list, a two-element sublist witnesses a strict
ordering of positions. -/
theorem pair_sublist_indexOf_lt :
    ∀ {o : List String} {x y : String},
      o.Nodup → [x, y].Sublist o → o.indexOf x < o.indexOf y := by
  intro o
  induction o with
  | nil =>
    intro x y _ h
    cases h
  | cons a o ih =>
    intro x y hnd h
    rw [List.nodup_cons] at hnd
    cases h with
    | cons _ h2 =>
      have hx : x ∈ o := h2.subset (by simp)
      have hy : y ∈ o := h2.subset (by simp)
      have hax : x ≠ a := fun he => hnd.1 (he ▸ hx)
      have hay : y ≠ a := fun he => hnd.1 (he ▸ hy)
      rw [List.indexOf_cons_ne _ hax.symm, List.indexOf_cons_ne _ hay.symm]
      exact Nat.succ_lt_succ (ih hnd.2 h2)
    | cons₂ _ h2 =>
      have hy : y ∈ o := h2.subset (by simp)
      have hay : y ≠ a := fun he => hnd.1 (he ▸ hy)
      rw [List.indexOf_cons_self, List.indexOf_cons_ne _ hay.symm]
      exact Nat.succ_pos _

/-- The names of the dependency map are the declared schema names. -/
theorem schemaDeps_map_fst (schema : EnvSchema) :
    (schemaDeps schema).map Prod.fst = schemaNames schema := by
  simp [schemaDeps, schemaNames, Function.comp]

/-- Every dependency recorded by `_rule_jinja_deps` is a declared name. -/
theorem mem_ruleJinjaDeps_sub {rule : GenerationRule} {allNames : List String}
    {x : String} (h : x ∈ ruleJinjaDeps rule allNames) : x ∈ allNames := by
  simp only [ruleJinjaDeps, List.mem_dedup, List.mem_flatMap] at h
  obtain ⟨t, _, hx⟩ := h
  simp only [jinjaDeps, List.mem_filter] at hx
  simpa using hx.2

/-- Dependency-map entries and the edge relation coincide (one direction:
an entry yields an edge). -/
theorem dependsOn_of_mem_schemaDeps {schema : EnvSchema} {n x : String}
    {ds : List String} (hmem : (n, ds) ∈ schemaDeps schema) (hx : x ∈ ds) :
    DependsOn schema n x := by
  simp only [schemaDeps, List.mem_map] at hmem
  obtain ⟨⟨n', v⟩, hv, heq⟩ := hmem
  obtain ⟨h1, h2⟩ := Prod.mk.injEq .. ▸ heq
  cases h1
  exact ⟨v, hv, h2 ▸ hx⟩

/-- Dependency-map entries and the edge relation coincide (the other
direction: an edge yields an entry). -/
theorem mem_schemaDeps_of_dependsOn {schema : EnvSchema} {n x : String}
    (h : DependsOn schema n x) :
    ∃ ds, (n, ds) ∈ schemaDeps schema ∧ x ∈ ds := by
  obtain ⟨v, hv, hx⟩ := h
  exact ⟨ruleJinjaDeps v.generation (schemaNames schema),
    List.mem_map.2 ⟨(n, v), hv, rfl⟩, hx⟩

/-- An error outcome of the resolver contains a member of a genuine cycle. -/
theorem topologicalOrder_error_cycle {schema : EnvSchema} {e : List String}
    (h : topologicalOrder schema = .error e) :
    e ≠ [] ∧ ∃ m, m ∈ e ∧ Relation.TransGen (DependsOn schema) m m := by
  have hclosed : ∀ n ds x, (n, ds) ∈ schemaDeps schema → x ∈ ds →
      x ∈ ([] : List String) ∨ x ∈ (schemaDeps schema).map Prod.fst := by
    intro n ds x hmem hx
    right
    rw [schemaDeps_map_fst]
    simp only [schemaDeps, List.mem_map] at hmem
    obtain ⟨⟨n', v⟩, _, heq⟩ := hmem
    obtain ⟨_, h2⟩ := Prod.mk.injEq .. ▸ heq
    exact mem_ruleJinjaDeps_sub (h2 ▸ hx)
  obtain ⟨hne, hstep⟩ :=
    kahnAux_error_stuck _ _ _ _ (Nat.le_refl _) hclosed h
  refine ⟨hne, ?_⟩
  apply exists_cycle_member e (DependsOn schema) hne
  intro m hm
  obtain ⟨ds, x, hmem, hx, hxe⟩ := hstep m hm
  exact ⟨x, dependsOn_of_mem_schemaDeps hmem hx, hxe⟩

/-- A successful resolver run emits a permutation of the declared names that
respects every dependency edge. -/
theorem topologicalOrder_ok_sound {schema : EnvSchema} {o : List String}
    (h : topologicalOrder schema = .ok o) :
    o.Perm (schemaNames schema) ∧
      ∀ n x, DependsOn schema n x → [x, n].Sublist o := by
  obtain ⟨rest, ho, hperm, hdep⟩ := kahnAux_ok_sound _ _ _ _ h
  simp only [List.nil_append] at ho
  subst ho
  refine ⟨schemaDeps_map_fst schema ▸ hperm, ?_⟩
  intro n x hedge
  obtain ⟨ds, hmem, hx⟩ := mem_schemaDeps_of_dependsOn hedge
  rcases hdep n ds x hmem hx with hfalse | hsub
  · cases hfalse
  · exact hsub

/-- Every edge of the scenario-2 schema goes from DSN to HOST. -/
theorem scenario2_edges {n x : String}
    (h : DependsOn scenario2Schema n x) : n = "DSN" ∧ x = "HOST" := by
  obtain ⟨v, hv, hx⟩ := h
  simp only [scenario2Schema, List.mem_cons, List.mem_singleton,
    List.not_mem_nil, or_false, Prod.mk.injEq] at hv
  rcases hv with ⟨hn, hvv⟩ | ⟨hn, hvv⟩
  · subst hn
    subst hvv
    have hred : ruleJinjaDeps
        (GenerationRule.DefaultGeneration [.lit "localhost"])
        (schemaNames scenario2Schema) = [] := by rfl
    rw [hred] at hx
    cases hx
  · subst hn
    subst hvv
    have hred : ruleJinjaDeps
        (GenerationRule.DefaultGeneration
          [.lit "postgres://", .var "HOST", .lit "/app"])
        (schemaNames scenario2Schema) = ["HOST"] := by rfl
    rw [hred] at hx
    simp only [List.mem_singleton] at hx
    exact ⟨rfl, hx⟩

/-- The scenario-2 schema has no dependency cycle. -/
theorem scenario2_acyclic :
    ∀ n, ¬ Relation.TransGen (DependsOn scenario2Schema) n n := by
  have hpath : ∀ a b, Relation.TransGen (DependsOn scenario2Schema) a b →
      a = "DSN" ∧ b = "HOST" := by
    intro a b htg
    induction htg with
    | single hedge => exact scenario2_edges hedge
    | tail _ hedge ihx =>
      obtain ⟨h1, _⟩ := scenario2_edges hedge
      exact absurd (h1 ▸ ihx.2) (by decide)
  intro n htg
  obtain ⟨h1, h2⟩ := hpath n n htg
  exact absurd (h1 ▸ h2) (by decide)

/-! ### Claim C3 -/

/-- Claim C3 counterexample: the scenario-3 schema references only declared
variable names (and has distinct names), yet the resolver does not succeed —
it reports a CircularDependencyError — so the claim's unconditional
"the resolver succeeds" is false as stated. -/
theorem c3_counterexample :
    (∀ nv ∈ scenario3Schema.vars,
      ∀ t ∈ ruleTemplateStrings nv.2.generation,
      ∀ r ∈ templateRefs t, r ∈ schemaNames scenario3Schema) ∧
    (schemaNames scenario3Schema).Nodup ∧
    topologicalOrder scenario3Schema = .error ["A", "B"] ∧
    ∀ o, topologicalOrder scenario3Schema ≠ .ok o := by
  refine ⟨by decide, by decide, by rfl, ?_⟩
  intro o h
  rw [show topologicalOrder scenario3Schema = .error ["A", "B"] from rfl] at h
  cases h

/-- Claim C3 (amended): for every schema with distinct variable names whose
rule template fields reference only declared variable names and whose
reference graph is acyclic, the resolver succeeds, its returned order lists
each variable exactly once (a duplicate-free permutation of the declared
names), and every referenced name is placed strictly before every name whose
rule's template-bearing fields reference it. -/
theorem c3_resolver_orders_dependencies (schema : EnvSchema)
    (hnd : (schemaNames schema).Nodup)
    (hdecl : ∀ nv ∈ schema.vars,
      ∀ t ∈ ruleTemplateStrings nv.2.generation,
      ∀ r ∈ templateRefs t, r ∈ schemaNames schema)
    (hacyc : ∀ n, ¬ Relation.TransGen (DependsOn schema) n n) :
    ∃ o, topologicalOrder schema = .ok o ∧
      o.Perm (schemaNames schema) ∧ o.Nodup ∧
      ∀ n x, DependsOn schema n x → [x, n].Sublist o := by
  cases h : topologicalOrder schema with
  | error e =>
    obtain ⟨_, m, _, hcyc⟩ := topologicalOrder_error_cycle h
    exact absurd hcyc (hacyc m)
  | ok o =>
    obtain ⟨hperm, hdep⟩ := topologicalOrder_ok_sound h
    exact ⟨o, rfl, hperm, (hperm.nodup_iff).2 hnd, hdep⟩

/-- Claim C3 witness: the amended theorem applied to the scenario-2 schema
(HOST literal, DSN referencing HOST). -/
theorem c3_witness :
    ∃ o, topologicalOrder scenario2Schema = .ok o ∧
      o.Perm (schemaNames scenario2Schema) ∧ o.Nodup ∧
      ∀ n x, DependsOn scenario2Schema n x → [x, n].Sublist o :=
  c3_resolver_orders_dependencies scenario2Schema (by decide) (by decide)
    scenario2_acyclic

/-! ### Claim C5 -/

/-- Claim C5: for every schema (with distinct variable names, the dict
invariant) containing a reference cycle — a single self-referencing variable
included — computing the generation order raises CircularDependencyError,
and the reported names include at least one variable participating in a
cycle. -/
theorem c5_cycle_raises_circular_dependency (schema : EnvSchema)
    (hnd : (schemaNames schema).Nodup)
    (hcyc : ∃ n, Relation.TransGen (DependsOn schema) n n) :
    ∃ e, topologicalOrder schema = .error e ∧ e ≠ [] ∧
      ∃ m, m ∈ e ∧ Relation.TransGen (DependsOn schema) m m := by
  cases h : topologicalOrder schema with
  | ok o =>
    exfalso
    obtain ⟨n, hn⟩ := hcyc
    obtain ⟨hperm, hdep⟩ := topologicalOrder_ok_sound h
    have hndo : o.Nodup := (hperm.nodup_iff).2 hnd
    have hmono : ∀ a b, Relation.TransGen (DependsOn schema) a b →
        o.indexOf b < o.indexOf a := by
      intro a b htg
      induction htg with
      | single hedge => exact pair_sublist_indexOf_lt hndo (hdep _ _ hedge)
      | tail _ hedge ihx =>
        exact lt_trans (pair_sublist_indexOf_lt hndo (hdep _ _ hedge)) ihx
    exact absurd (hmono n n hn) (lt_irrefl _)
  | error e =>
    obtain ⟨hne, m, hm, hcm⟩ := topologicalOrder_error_cycle h
    exact ⟨e, rfl, hne, m, hm, hcm⟩

/-- Claim C5 witness: the theorem applied to the single self-referencing
variable A. -/
theorem c5_witness :
    ∃ e, topologicalOrder selfRefSchema = .error e ∧ e ≠ [] ∧
      ∃ m, m ∈ e ∧ Relation.TransGen (DependsOn selfRefSchema) m m :=
  c5_cycle_raises_circular_dependency selfRefSchema (by decide)
    ⟨"A", Relation.TransGen.single
      ⟨{ generation := .DefaultGeneration [.var "A"] }, by decide, by decide⟩⟩

/-! ### Association-list (Python dict) lookup facts -/

/-- Lookup misses when the key is not among the mapped keys. -/
theorem lookup_eq_none_of_not_mem_keys {β : Type} :
    ∀ {l : List (String × β)} {k : String},
      k ∉ l.map Prod.fst → l.lookup k = none := by
  intro l
  induction l with
  | nil => intro k _; rfl
  | cons kv rest ih =>
    intro k hk
    simp only [List.map_cons, List.mem_cons, not_or] at hk
    obtain ⟨h1, h2⟩ := hk
    obtain ⟨k1, v1⟩ := kv
    simp only [List.lookup]
    have hbe : (k == k1) = false := beq_eq_false_iff_ne.2 h1
    rw [hbe]
    exact ih h2

/-- With duplicate-free keys, lookup finds the value of any member entry. -/
theorem lookup_eq_some_of_mem_of_nodup {β : Type} :
    ∀ {l : List (String × β)} {k : String} {v : β},
      (l.map Prod.fst).Nodup → (k, v) ∈ l → l.lookup k = some v := by
  intro l
  induction l with
  | nil => intro k v _ hm; cases hm
  | cons kv rest ih =>
    intro k v hnd hm
    obtain ⟨k1, v1⟩ := kv
    simp only [List.map_cons, List.nodup_cons] at hnd
    rcases List.mem_cons.1 hm with heq | hmem
    · obtain ⟨hk, hv⟩ := Prod.mk.injEq .. ▸ heq
      subst hk
      subst hv
      simp only [List.lookup]
      rw [show (k == k) = true from beq_self_eq_true k]
    · have hne : k ≠ k1 := by
        intro he
        subst he
        exact hnd.1 (List.mem_map.2 ⟨(k, v), hmem, rfl⟩)
      simp only [List.lookup]
      rw [beq_eq_false_iff_ne.2 hne]
      exact ih hnd.2 hmem

/-- A mapped key has an entry. -/
theorem exists_entry_of_mem_keys {β : Type} {l : List (String × β)}
    {k : String} (h : k ∈ l.map Prod.fst) : ∃ v, (k, v) ∈ l := by
  obtain ⟨⟨k1, v⟩, hm, hk⟩ := List.mem_map.1 h
  exact ⟨v, by rwa [show k1 = k from hk] at hm⟩

/-! ### The generation loop -/

/-- On success, the per-name loop appends exactly one entry per ordered
name, and every appended entry either carries its override value or belongs
to a name absent from the overrides. -/
theorem generateEnvAux_ok (runner : String → Option String)
    (material : MaterialRequest → String)
    (overrides : List (String × String))
    (schemaVars : List (String × VariableSchema)) :
    ∀ (order : List String) (result m : List (String × String)),
      generateEnvAux runner material overrides schemaVars order result =
        .ok m →
      m.map Prod.fst = result.map Prod.fst ++ order ∧
      ∀ kv, kv ∈ m → kv ∈ result ∨
        overrides.lookup kv.1 = some kv.2 ∨
        overrides.lookup kv.1 = none := by
  intro order
  induction order with
  | nil =>
    intro result m h
    rw [generateEnvAux] at h
    cases h
    exact ⟨by simp, fun kv hkv => Or.inl hkv⟩
  | cons name rest ih =>
    intro result m h
    rw [generateEnvAux] at h
    split at h
    · rename_i v ho
      obtain ⟨hkeys, hent⟩ := ih _ _ h
      refine ⟨by simpa using hkeys, ?_⟩
      intro kv hkv
      rcases hent kv hkv with hin | hov
      · rcases List.mem_append.1 hin with hin2 | hin2
        · exact Or.inl hin2
        · simp only [List.mem_singleton] at hin2
          subst hin2
          exact Or.inr (Or.inl ho)
      · exact Or.inr hov
    · rename_i ho
      split at h
      · rename_i vs hs
        split at h
        · rename_i value hgv
          obtain ⟨hkeys, hent⟩ := ih _ _ h
          refine ⟨by simpa using hkeys, ?_⟩
          intro kv hkv
          rcases hent kv hkv with hin | hov
          · rcases List.mem_append.1 hin with hin2 | hin2
            · exact Or.inl hin2
            · simp only [List.mem_singleton] at hin2
              subst hin2
              exact Or.inr (Or.inr ho)
          · exact Or.inr hov
        · cases h
      · cases h

/-! ### Claim C4 -/

/-- Claim C4: for every schema (with distinct declared names) and every
override map, an override for a declared name N always wins — the generated
mapping binds N to the override value regardless of N's rule kind — and, as
in the HOST/DSN scenario, later-generated variables whose templates
reference N are rendered against the override value: generating the
scenario-2 schema with HOST overridden to prod-db yields HOST bound to
prod-db and DSN bound to postgres://prod-db/app. -/
theorem c4_override_wins :
    (∀ (runner : String → Option String)
      (material : MaterialRequest → String) (schema : EnvSchema)
      (overrides m : List (String × String)) (n w : String),
      (schemaNames schema).Nodup →
      generateEnv runner material schema overrides = .ok m →
      n ∈ schemaNames schema →
      overrides.lookup n = some w →
      m.lookup n = some w) ∧
    (∀ (runner : String → Option String)
      (material : MaterialRequest → String),
      generateEnv runner material scenario2Schema [("HOST", "prod-db")] =
        .ok [("HOST", "prod-db"), ("DSN", "postgres://prod-db/app")]) := by
  constructor
  · intro runner material schema overrides m n w hnd h hn hw
    rw [generateEnv] at h
    cases ht : topologicalOrder schema with
    | error names => rw [ht] at h; cases h
    | ok order =>
      rw [ht] at h
      obtain ⟨hkeys, hent⟩ := generateEnvAux_ok _ _ _ _ _ _ _ h
      simp only [List.map_nil, List.nil_append] at hkeys
      obtain ⟨hperm, _⟩ := topologicalOrder_ok_sound ht
      have hmkeys : (m.map Prod.fst).Perm (schemaNames schema) :=
        hkeys ▸ hperm
      have hmnd : (m.map Prod.fst).Nodup := (hmkeys.nodup_iff).2 hnd
      have hnmem : n ∈ m.map Prod.fst := hmkeys.mem_iff.2 hn
      obtain ⟨v, hentry⟩ := exists_entry_of_mem_keys hnmem
      rcases hent (n, v) hentry with hfalse | hov | hnone
      · cases hfalse
      · rw [lookup_eq_some_of_mem_of_nodup hmnd hentry]
        rw [hw] at hov
        exact hov.symm
      · rw [hnone] at hw
        cases hw
  · intro runner material
    rfl

/-- Claim C4 witness: the general part applied at the scenario-2 schema
with HOST overridden, and the concrete scenario evaluated. -/
theorem c4_witness :
    List.lookup "HOST"
        [("HOST", "prod-db"), ("DSN", "postgres://prod-db/app")] =
      some "prod-db" ∧
    generateEnv (fun _ => none) (fun _ => "") scenario2Schema
        [("HOST", "prod-db")] =
      .ok [("HOST", "prod-db"), ("DSN", "postgres://prod-db/app")] := by
  constructor
  · exact c4_override_wins.1 (fun _ => none) (fun _ => "") scenario2Schema
      [("HOST", "prod-db")]
      [("HOST", "prod-db"), ("DSN", "postgres://prod-db/app")]
      "HOST" "prod-db" (by decide) (by rfl) (by decide) (by rfl)
  · exact c4_override_wins.2 (fun _ => none) (fun _ => "")

/-! ### Claim C10 -/

/-- Claim C10: whenever generation succeeds, the key set of the returned
mapping is exactly the schema's declared variable names (in generation
order), so override entries for undeclared names are silently ignored and
never appear in the result. -/
theorem c10_result_keys_are_declared
    (runner : String → Option String)
    (material : MaterialRequest → String) (schema : EnvSchema)
    (overrides m : List (String × String))
    (h : generateEnv runner material schema overrides = .ok m) :
    (m.map Prod.fst).Perm (schemaNames schema) ∧
      ∀ k, k ∉ schemaNames schema → m.lookup k = none := by
  rw [generateEnv] at h
  cases ht : topologicalOrder schema with
  | error names => rw [ht] at h; cases h
  | ok order =>
    rw [ht] at h
    obtain ⟨hkeys, _⟩ := generateEnvAux_ok _ _ _ _ _ _ _ h
    simp only [List.map_nil, List.nil_append] at hkeys
    obtain ⟨hperm, _⟩ := topologicalOrder_ok_sound ht
    have hmkeys : (m.map Prod.fst).Perm (schemaNames schema) :=
      hkeys ▸ hperm
    refine ⟨hmkeys, ?_⟩
    intro k hk
    apply lookup_eq_none_of_not_mem_keys
    intro hmem
    exact hk (hmkeys.mem_iff.1 hmem)

/-- Claim C10 witness: the theorem applied to the scenario-2 schema with an
override for the undeclared name EXTRA, which does not appear in the
result. -/
theorem c10_witness :
    (([("HOST", "localhost"),
        ("DSN", "postgres://localhost/app")] : List (String × String)).map
      Prod.fst).Perm (schemaNames scenario2Schema) ∧
    List.lookup "EXTRA"
        [("HOST", "localhost"), ("DSN", "postgres://localhost/app")] =
      none := by
  have h := c10_result_keys_are_declared (fun _ => none) (fun _ => "")
    scenario2Schema [("EXTRA", "x")]
    [("HOST", "localhost"), ("DSN", "postgres://localhost/app")] (by rfl)
  exact ⟨h.1, h.2 "EXTRA" (by decide)⟩

/-! ### Claim C1 -/

/-- Claim C1 (code evaluation at the divergence): every value of the code's
GenerationRule union carries one of exactly three discriminators — default,
command, openssl — and none carries a template discriminator; the
four-variant union with a Template rule that the claim (and the package's
own template submodule and tests) describe does not exist in schema.py. -/
theorem c1_rule_union_has_three_variants (r : GenerationRule) :
    (ruleDiscriminator r = "default" ∨ ruleDiscriminator r = "command" ∨
      ruleDiscriminator r = "openssl") ∧
    ruleDiscriminator r ≠ "template" := by
  cases r with
  | DefaultGeneration value =>
    exact ⟨Or.inl rfl, by simp [ruleDiscriminator]⟩
  | CommandGeneration command =>
    exact ⟨Or.inr (Or.inl rfl), by simp [ruleDiscriminator]⟩
  | OpenSSLGeneration command args =>
    exact ⟨Or.inr (Or.inr rfl), by simp [ruleDiscriminator]⟩

/-! ### Claim C2 -/

/-- Claim C2 (code evaluation at the divergence): three of the six storage
adapters — dotenv, toml and yaml — do not implement the protocol's load
operation at all (the CLI's unconditional backend.load() call raises
AttributeError on them), while stdout, json and komodo do. -/
theorem c2_three_adapters_lack_load :
    implementsLoad .dotenv = false ∧ implementsLoad .toml = false ∧
    implementsLoad .yaml = false ∧ implementsLoad .stdout = true ∧
    implementsLoad .json = true ∧ implementsLoad .komodo = true :=
  ⟨rfl, rfl, rfl, rfl, rfl, rfl⟩

/-! ### Claim C6 -/

/-- Claim C6 counterexample: executing the rsa crypto rule with the
unsupported encoding value "bogus" (the documented encodings are pem and
der_b64) is not a hard failure — the dispatch silently falls back to
base64-encoded DER with the default key size. -/
theorem c6_counterexample :
    opensslRequest ⟨"rsa", [("encoding", .str "bogus")]⟩ =
      .ok (.rsaDerB64 2048) ∧
    "bogus" ∉ ["pem", "der_b64"] :=
  ⟨rfl, by decide⟩

/-- Claim C6 (amended): an unknown command name is a hard failure whose
error carries the offending name and the supported command set; an
unsupported EC curve is a hard failure carrying the offending value and the
supported curves; an unsupported encoding for the random command is a hard
failure carrying the offending value (though not the supported set); but an
unsupported encoding is not a failure for any of the four key commands —
rsa and ec silently fall back to base64-encoded DER, and ed25519 and
x25519 to raw base64. -/
theorem c6_crypto_failures :
    (∀ (cmd : String) (args : List (String × OArg)),
      cmd ∉ supportedCommands →
      opensslRequest ⟨cmd, args⟩ =
        .error (.unsupportedCommand cmd supportedCommands)) ∧
    (∀ (args : List (String × OArg)) (s : String),
      argGet args "curve" (.str "secp256r1") = .str s →
      s ∉ ecCurveNames →
      opensslRequest ⟨"ec", args⟩ =
        .error (.unsupportedCurve (.str s) ecCurveNames)) ∧
    (∀ (args : List (String × OArg)) (len : Int) (enc : String),
      pyIntOfArg (argGet args "length" (.int 32)) = some len →
      argGet args "encoding" (.str "hex") = .str enc →
      enc ∉ ["hex", "base64", "base64url"] →
      opensslRequest ⟨"random", args⟩ =
        .error (.unsupportedRandomEncoding (.str enc))) ∧
    (∀ s : String, s ≠ "pem" →
      opensslRequest ⟨"rsa", [("encoding", .str s)]⟩ =
        .ok (.rsaDerB64 2048)) ∧
    (∀ curve s : String, curve ∈ ecCurveNames → s ≠ "pem" →
      opensslRequest ⟨"ec", [("curve", .str curve), ("encoding", .str s)]⟩ =
        .ok (.ecDerB64 curve)) ∧
    (∀ s : String, s ≠ "pem" →
      opensslRequest ⟨"ed25519", [("encoding", .str s)]⟩ =
        .ok .ed25519RawB64) ∧
    (∀ s : String, s ≠ "pem" →
      opensslRequest ⟨"x25519", [("encoding", .str s)]⟩ =
        .ok .x25519RawB64) := by
  refine ⟨?_, ?_, ?_, ?_, ?_, ?_, ?_⟩
  · intro cmd args hcmd
    rw [opensslRequest]
    split
    all_goals first
      | rfl
      | (rename_i heq
         exfalso
         subst heq
         simp [supportedCommands] at hcmd)
  · intro args s hs hcur
    have hred : opensslRequest ⟨"ec", args⟩ = ecRequest args := rfl
    rw [hred, ecRequest]
    simp only [hs]
    have hcontains : ecCurveNames.contains s = false := by
      by_contra hne
      have : s ∈ ecCurveNames := by
        have ht : ecCurveNames.contains s = true := by
          cases hc : ecCurveNames.contains s with
          | true => rfl
          | false => exact absurd hc hne
        simpa using ht
      exact hcur this
    simp only [hcontains, Bool.false_eq_true, if_false]
  · intro args len enc hlen henc hencbad
    have hred : opensslRequest ⟨"random", args⟩ = randomRequest args := rfl
    rw [hred, randomRequest]
    simp only [hlen, henc]
    simp only [List.mem_cons, List.not_mem_nil, or_false, not_or] at hencbad
    obtain ⟨h1, h2, h3⟩ := hencbad
    simp [oargEqStr, h1, h2, h3]
  · intro s hs
    have hred : opensslRequest ⟨"rsa", [("encoding", .str s)]⟩ =
        rsaRequest [("encoding", .str s)] := rfl
    rw [hred, rsaRequest]
    have hget : argGet [("encoding", OArg.str s)] "key_size" (.int 2048) =
        .int 2048 := rfl
    rw [hget]
    simp only [pyIntOfArg]
    have hgete : argGet [("encoding", OArg.str s)] "encoding" (.str "pem") =
        .str s := rfl
    rw [hgete, pemOrDerB64]
    simp [oargEqStr, hs]
  · intro curve s hcurve hs
    have hred : opensslRequest
        ⟨"ec", [("curve", .str curve), ("encoding", .str s)]⟩ =
        ecRequest [("curve", .str curve), ("encoding", .str s)] := rfl
    rw [hred, ecRequest]
    have hgetc : argGet [("curve", OArg.str curve), ("encoding", OArg.str s)]
        "curve" (.str "secp256r1") = .str curve := rfl
    simp only [hgetc]
    have hc : ecCurveNames.contains curve = true := by simpa using hcurve
    rw [if_pos hc]
    have hgete : argGet [("curve", OArg.str curve), ("encoding", OArg.str s)]
        "encoding" (.str "pem") = .str s := rfl
    rw [hgete, pemOrDerB64]
    simp [oargEqStr, hs]
  · intro s hs
    have hred : opensslRequest ⟨"ed25519", [("encoding", .str s)]⟩ =
        ed25519Request [("encoding", .str s)] := rfl
    rw [hred, ed25519Request]
    have hgete : argGet [("encoding", OArg.str s)] "encoding" (.str "pem") =
        .str s := rfl
    rw [hgete]
    simp [oargEqStr, hs]
  · intro s hs
    have hred : opensslRequest ⟨"x25519", [("encoding", .str s)]⟩ =
        x25519Request [("encoding", .str s)] := rfl
    rw [hred, x25519Request]
    have hgete : argGet [("encoding", OArg.str s)] "encoding"
        (.str "raw_b64") = .str s := rfl
    rw [hgete]
    simp [oargEqStr, hs]

/-- Claim C6 witness: each branch of the amended theorem discharged at a
concrete input. -/
theorem c6_witness :
    opensslRequest ⟨"dsa", []⟩ =
      .error (.unsupportedCommand "dsa" supportedCommands) ∧
    opensslRequest ⟨"ec", [("curve", .str "p256")]⟩ =
      .error (.unsupportedCurve (.str "p256") ecCurveNames) ∧
    opensslRequest ⟨"random", [("encoding", .str "base32")]⟩ =
      .error (.unsupportedRandomEncoding (.str "base32")) ∧
    opensslRequest ⟨"rsa", [("encoding", .str "der")]⟩ =
      .ok (.rsaDerB64 2048) ∧
    opensslRequest
        ⟨"ec", [("curve", .str "secp384r1"), ("encoding", .str "der")]⟩ =
      .ok (.ecDerB64 "secp384r1") ∧
    opensslRequest ⟨"ed25519", [("encoding", .str "raw")]⟩ =
      .ok .ed25519RawB64 ∧
    opensslRequest ⟨"x25519", [("encoding", .str "raw")]⟩ =
      .ok .x25519RawB64 :=
  ⟨c6_crypto_failures.1 "dsa" [] (by decide),
    c6_crypto_failures.2.1 [("curve", .str "p256")] "p256" rfl (by decide),
    c6_crypto_failures.2.2.1 [("encoding", .str "base32")] 32 "base32" rfl rfl
      (by decide),
    c6_crypto_failures.2.2.2.1 "der" (by decide),
    c6_crypto_failures.2.2.2.2.1 "secp384r1" "der" (by decide) (by decide),
    c6_crypto_failures.2.2.2.2.2.1 "raw" (by decide),
    c6_crypto_failures.2.2.2.2.2.2 "raw" (by decide)⟩

/-- Lookup hits are members. -/
theorem mem_of_lookup_eq_some {β : Type} :
    ∀ {l : List (String × β)} {k : String} {v : β},
      l.lookup k = some v → (k, v) ∈ l := by
  intro l
  induction l with
  | nil => intro k v h; cases h
  | cons kv rest ih =>
    intro k v h
    obtain ⟨k1, v1⟩ := kv
    simp only [List.lookup] at h
    cases hbe : (k == k1) with
    | true =>
      rw [hbe] at h
      cases h
      have hk : k = k1 := by simpa using hbe
      subst hk
      exact List.mem_cons_self _ _
    | false =>
      rw [hbe] at h
      exact List.mem_cons_of_mem _ (ih h)

/-! ### The dotenv merge loop and its decomposition -/

/-- The merge loop equals the claim's decomposition: the processed original
lines followed by the never-matched public entries, for any accumulator
state. -/
theorem dotenvStoreAux_eq (public : List (String × String)) :
    ∀ (lines newLines handled : List String),
      dotenvStoreAux public lines newLines handled =
        newLines ++ lines.map (dotenvSpecLine public) ++
          (public.filter (fun kv =>
            ! (handled ++ dotenvMatchedKeys public lines).contains kv.1)).map
            (fun kv => kv.1 ++ "=" ++ kv.2 ++ "\n") := by
  intro lines
  induction lines with
  | nil =>
    intro newLines handled
    rw [dotenvStoreAux]
    simp [dotenvMatchedKeys]
  | cons line rest ih =>
    intro newLines handled
    rw [dotenvStoreAux]
    cases hk : dotenvLineKey line with
    | none =>
      simp only [hk]
      rw [ih]
      have hspec : dotenvSpecLine public line = line := by
        simp [dotenvSpecLine, hk]
      have hmatched : dotenvMatchedKeys public (line :: rest) =
          dotenvMatchedKeys public rest := by
        simp [dotenvMatchedKeys, hk]
      rw [hmatched, List.map_cons, hspec]
      simp [List.append_assoc]
    | some key =>
      simp only [hk]
      cases hl : public.lookup key with
      | none =>
        simp only [hl]
        rw [ih]
        have hspec : dotenvSpecLine public line = line := by
          simp [dotenvSpecLine, hk, hl]
        have hmatched : dotenvMatchedKeys public (line :: rest) =
            dotenvMatchedKeys public rest := by
          simp [dotenvMatchedKeys, hk, hl]
        rw [hmatched, List.map_cons, hspec]
        simp [List.append_assoc]
      | some v =>
        simp only [hl]
        rw [ih]
        have hspec : dotenvSpecLine public line =
            (if dotenvExportFlag line then "export " else "") ++
              key ++ "=" ++ v ++ "\n" := by
          simp [dotenvSpecLine, hk, hl]
        have hmatched : dotenvMatchedKeys public (line :: rest) =
            key :: dotenvMatchedKeys public rest := by
          simp [dotenvMatchedKeys, hk, hl]
        rw [hmatched, List.map_cons, hspec]
        have hhandled : handled ++ [key] ++ dotenvMatchedKeys public rest =
            handled ++ key :: dotenvMatchedKeys public rest := by
          simp [List.append_assoc]
        rw [hhandled]
        simp [List.append_assoc]

/-! ### Claim C7 -/

/-- Claim C7 counterexample: the line export-TAB-FOO=old matches the merge
regex (its key is FOO) and carries an export keyword, FOO is public, yet
the replacement drops the export prefix — the prefix check looks for the
literal export-plus-space, so it is not preserved as the claim states. -/
theorem c7_counterexample :
    dotenvLineKey "export\tFOO=old\n" = some "FOO" ∧
    dotenvExportFlag "export\tFOO=old\n" = false ∧
    dotenvStoreLines [("FOO", "new")] ["export\tFOO=old\n"] = ["FOO=new\n"] ∧
    "export ".data.isPrefixOf ("FOO=new\n").data = false := by
  decide

/-- Claim C7 (amended): for every public mapping and every target line
list, the merge equals the claim's decomposition — every line matching
[export ]KEY= whose KEY is public is replaced in place with the new value,
keeping an export prefix exactly when it is written as export + space (a
matching line whose export keyword is followed by other whitespace is
replaced but loses the prefix); every other line passes through
byte-identical; and the public entries matched by no line are appended one
per line after all original lines — and on scenario 4, storing FOO=new
over the comment/FOO/BAR target with only FOO public rewrites only the FOO
line. -/
theorem c7_dotenv_merge :
    (∀ (public : List (String × String)) (lines : List String),
      dotenvStoreLines public lines = dotenvSpecStore public lines) ∧
    dotenvStore [("FOO", "new")] scenario4Schema
        "# comment\nFOO=old\nBAR=keep\n" =
      "# comment\nFOO=new\nBAR=keep\n" := by
  constructor
  · intro public lines
    rw [dotenvStoreLines, dotenvSpecStore, dotenvStoreAux_eq]
    simp
  · decide

/-! ### The komodo scanner -/

/-- A variable array-of-tables header starts with two open brackets. -/
theorem isVariableTablesHeader_shape {cs : List Char}
    (h : isVariableTablesHeader cs = true) :
    ['[', '['].isPrefixOf cs = true := by
  unfold isVariableTablesHeader at h
  split at h
  · rename_i rest
    simp [List.isPrefixOf]
  · cases h

/-- An inline variable assignment starts with the word variable. -/
theorem isInlineVariableStart_shape {cs : List Char}
    (h : isInlineVariableStart cs = true) :
    ∃ rest,
      cs = 'v' :: 'a' :: 'r' :: 'i' :: 'a' :: 'b' :: 'l' :: 'e' :: rest := by
  unfold isInlineVariableStart at h
  split at h
  · rename_i rest
    exact ⟨rest, rfl⟩
  · cases h

/-- A two-character isPrefixOf hit exposes the first two characters. -/
theorem prefixTwo_shape {cs : List Char} {a b : Char}
    (h : [a, b].isPrefixOf cs = true) : ∃ t, cs = a :: b :: t := by
  match cs with
  | [] => simp [List.isPrefixOf] at h
  | [c] => simp [List.isPrefixOf] at h
  | c :: d :: t =>
    simp only [List.isPrefixOf, Bool.and_eq_true, beq_iff_eq] at h
    obtain ⟨h1, h2⟩ := h
    obtain ⟨h2, _⟩ := h2
    exact ⟨t, by rw [h1, h2]⟩

/-- A one-character isPrefixOf hit exposes the first character. -/
theorem prefixOne_shape {cs : List Char} {a : Char}
    (h : [a].isPrefixOf cs = true) : ∃ t, cs = a :: t := by
  match cs with
  | [] => simp [List.isPrefixOf] at h
  | c :: t =>
    simp only [List.isPrefixOf, Bool.and_eq_true, beq_iff_eq] at h
    exact ⟨t, by rw [h.1]⟩

/-- Each scanner step keeps nothing or exactly the incoming line. -/
theorem stripStep_keep_cases (st : KomodoMode × Int) (line : String) :
    (stripStep st line).2 = [] ∨ (stripStep st line).2 = [line] := by
  unfold stripStep
  rcases st with ⟨mode, depth⟩
  cases mode <;> simp only []
  · split
    · exact Or.inl rfl
    · split
      · split
        · exact Or.inl rfl
        · exact Or.inl rfl
      · exact Or.inr rfl
  · split
    · split
      · exact Or.inl rfl
      · exact Or.inr rfl
    · split
      · exact Or.inr rfl
      · exact Or.inl rfl
  · split
    · exact Or.inl rfl
    · exact Or.inl rfl

/-- A kept line is the incoming line verbatim and starts no variable block
of either form. -/
theorem stripStep_keep {st : KomodoMode × Int} {line line2 : String}
    (h : line2 ∈ (stripStep st line).2) :
    line2 = line ∧
    isVariableTablesHeader (pyStripStr line).data = false ∧
    isInlineVariableStart (pyStripStr line).data = false := by
  unfold stripStep at h
  rcases st with ⟨mode, depth⟩
  cases mode <;> simp only [] at h
  · split at h
    · cases h
    · rename_i hc1
      split at h
      · split at h
        · cases h
        · cases h
      · rename_i hc2
        simp only [List.mem_singleton] at h
        subst h
        refine ⟨rfl, ?_, ?_⟩
        · cases hh : isVariableTablesHeader (pyStripStr line2).data with
          | false => rfl
          | true =>
            exfalso
            apply hc1
            rw [isVariableTablesHeader_shape hh, hh]
            rfl
        · cases hi : isInlineVariableStart (pyStripStr line2).data with
          | false => rfl
          | true => exact absurd hi hc2
  · split at h
    · rename_i hp
      split at h
      · cases h
      · rename_i hh
        simp only [List.mem_singleton] at h
        subst h
        obtain ⟨t, ht⟩ := prefixTwo_shape hp
        refine ⟨rfl, by simpa using hh, ?_⟩
        rw [ht]
        rfl
    · rename_i hp1
      split at h
      · rename_i hp2
        simp only [List.mem_singleton] at h
        subst h
        obtain ⟨t, ht⟩ := prefixOne_shape hp2
        constructor
        · rfl
        constructor
        · cases hh : isVariableTablesHeader (pyStripStr line2).data with
          | false => rfl
          | true => exact absurd (isVariableTablesHeader_shape hh) hp1
        · cases hi : isInlineVariableStart (pyStripStr line2).data with
          | false => rfl
          | true =>
            obtain ⟨r, hr⟩ := isInlineVariableStart_shape hi
            rw [hr] at ht
            cases ht
      · cases h
  · split at h
    · cases h
    · cases h

/-- The scanner's output is a verbatim, order-preserving selection of the
input lines. -/
theorem stripVariableLinesAux_sublist (st : KomodoMode × Int) :
    ∀ lines : List String,
      (stripVariableLinesAux st lines).Sublist lines := by
  intro lines
  induction lines generalizing st with
  | nil => simp [stripVariableLinesAux]
  | cons line rest ih =>
    rw [stripVariableLinesAux]
    rcases stripStep_keep_cases st line with hk | hk
    · rw [hk]
      exact (ih _).trans (List.sublist_cons_self _ _)
    · rw [hk]
      exact (ih _).cons₂ line

/-- No line of the scanner's output starts a variable block of either
form. -/
theorem stripVariableLinesAux_no_block (st : KomodoMode × Int) :
    ∀ (lines : List String) (line : String),
      line ∈ stripVariableLinesAux st lines →
      isVariableTablesHeader (pyStripStr line).data = false ∧
      isInlineVariableStart (pyStripStr line).data = false := by
  intro lines
  induction lines generalizing st with
  | nil => intro line h; cases h
  | cons l rest ih =>
    intro line h
    rw [stripVariableLinesAux] at h
    rcases List.mem_append.1 h with hkeep | hrest
    · obtain ⟨heq, hh, hi⟩ := stripStep_keep hkeep
      subst heq
      exact ⟨hh, hi⟩
    · exact ih _ line hrest

/-- A document containing no variable block start passes through the
scanner unchanged, from the idle state with any bracket depth. -/
theorem stripVariableLinesAux_id (depth : Int) :
    ∀ lines : List String,
      (∀ line ∈ lines,
        isVariableTablesHeader (pyStripStr line).data = false ∧
        isInlineVariableStart (pyStripStr line).data = false) →
      stripVariableLinesAux (KomodoMode.none, depth) lines = lines := by
  intro lines
  induction lines generalizing depth with
  | nil => intro _; rfl
  | cons line rest ih =>
    intro hall
    obtain ⟨hh, hi⟩ := hall line (List.mem_cons_self _ _)
    rw [stripVariableLinesAux]
    have hstep : stripStep (KomodoMode.none, depth) line =
        ((KomodoMode.none, depth), [line]) := by
      unfold stripStep
      simp [hh, hi]
    rw [hstep]
    simp only [List.cons_append, List.nil_append]
    rw [ih depth (fun l hl => hall l (List.mem_cons_of_mem _ hl))]

/-! ### Claim C8 -/

/-- Claim C8: the array-of-records merge removes variable blocks via the
three-state scanner — its output is a verbatim order-preserving selection
of the document's lines containing no [[variable]] header and no inline
variable array start, and a document with no such block passes through
unchanged — and appends exactly one freshly serialized record per public
value, as in scenario 5: with only A public, storing A=new over a document
holding an unrelated key and records A=old and OLD_VAR=x leaves the
unrelated key unchanged and the block holding exactly the one entry
A=new. -/
theorem c8_komodo_records_merge :
    (∀ lines : List String, (stripVariableLines lines).Sublist lines) ∧
    (∀ (lines : List String) (line : String),
      line ∈ stripVariableLines lines →
      isVariableTablesHeader (pyStripStr line).data = false ∧
      isInlineVariableStart (pyStripStr line).data = false) ∧
    (∀ lines : List String,
      (∀ line ∈ lines,
        isVariableTablesHeader (pyStripStr line).data = false ∧
        isInlineVariableStart (pyStripStr line).data = false) →
      stripVariableLines lines = lines) ∧
    komodoStore [("A", "new")] scenario5Schema scenario5Input =
      scenario5Output := by
  refine ⟨?_, ?_, ?_, by decide⟩
  · intro lines
    exact stripVariableLinesAux_sublist _ lines
  · intro lines line h
    exact stripVariableLinesAux_no_block _ lines line h
  · intro lines hall
    exact stripVariableLinesAux_id 0 lines hall

/-- Claim C8 witness: the pass-through conjunct discharged on a concrete
two-line document with no variable block. -/
theorem c8_witness :
    stripVariableLines ["unrelated = \"keep\"\n", "[server]\nport = 1\n"] =
      ["unrelated = \"keep\"\n", "[server]\nport = 1\n"] :=
  c8_komodo_records_merge.2.2.1
    ["unrelated = \"keep\"\n", "[server]\nport = 1\n"] (by decide)

/-! ### Claim C9 -/

/-- Claim C9 counterexample: internal variables can be present in a stored
output — a pre-existing SECRET=old line in a dotenv target passes through
the non-destructive merge byte-identical (SECRET is not in the public set),
so the resulting file still contains the internal variable's name, contrary
to "never present in file contents". -/
theorem c9_counterexample :
    internalOf internalSchema "SECRET" = true ∧
    dotenvStore [("PUBLIC", "a"), ("SECRET", "b")] internalSchema
        "SECRET=old\n" =
      "SECRET=old\nPUBLIC=a\n" ∧
    dotenvLineKey "SECRET=old\n" = some "SECRET" := by
  decide

/-- Claim C9 (amended): variables with internal = true are never written by
any storage adapter — the public value set contains no internal name; the
stream adapter prints exactly the public entries; the whole-document
adapters' merged top-level keys come only from the prior document or the
public set; and every line of the line-oriented merge either comes verbatim
from the prior content or serializes a public entry — though a pre-existing
occurrence of an internal variable's name in the target is preserved by the
non-destructive adapters. -/
theorem c9_internal_never_written (values : List (String × String))
    (schema : EnvSchema) (n : String) (h : internalOf schema n = true) :
    n ∉ (publicValues values schema).map Prod.fst ∧
    (∀ line ∈ stdoutStoreLines values schema,
      ∃ kv, kv ∈ publicValues values schema ∧ line = kv.1 ++ "=" ++ kv.2) ∧
    (∀ (existing : List (String × String)) (k : String),
      k ∈ (wholeDocStoreMap values schema existing).map Prod.fst →
      k ∈ existing.map Prod.fst ∨
        k ∈ (publicValues values schema).map Prod.fst) ∧
    (∀ (lines : List String) (line : String),
      line ∈ dotenvStoreLines (publicValues values schema) lines →
      line ∈ lines ∨
        ∃ kv pre, kv ∈ publicValues values schema ∧
          (pre = "" ∨ pre = "export ") ∧
          line = pre ++ kv.1 ++ "=" ++ kv.2 ++ "\n") ∧
    (∀ entry ∈ (publicValues values schema).map
        (fun kv => variableEntry kv.1 kv.2),
      ∃ kv, kv ∈ publicValues values schema ∧
        entry = variableEntry kv.1 kv.2) := by
  refine ⟨?_, ?_, ?_, ?_, ?_⟩
  · intro hmem
    obtain ⟨kv, hkv, hfst⟩ := List.mem_map.1 hmem
    have hf := (List.mem_filter.1 hkv).2
    rw [hfst] at hf
    rw [h] at hf
    cases hf
  · intro line hline
    obtain ⟨kv, hkv, hl⟩ := List.mem_map.1 hline
    exact ⟨kv, hkv, hl.symm⟩
  · intro existing k hk
    rw [wholeDocStoreMap, pyDictUpdate, List.map_append] at hk
    rcases List.mem_append.1 hk with hk | hk
    · left
      obtain ⟨kv2, hkv2, hfst⟩ := List.mem_map.1 hk
      obtain ⟨kv, hkv, hmap⟩ := List.mem_map.1 hkv2
      refine List.mem_map.2 ⟨kv, hkv, ?_⟩
      rw [← hfst, ← hmap]
      cases hlu : (publicValues values schema).lookup kv.1 <;> simp [hlu]
    · right
      obtain ⟨kv, hkv, hfst⟩ := List.mem_map.1 hk
      exact List.mem_map.2 ⟨kv, (List.mem_filter.1 hkv).1, hfst⟩
  · intro lines line hline
    rw [dotenvStoreLines, dotenvStoreAux_eq] at hline
    simp only [List.nil_append] at hline
    rcases List.mem_append.1 hline with hline | hline
    · obtain ⟨l, hl, hspec⟩ := List.mem_map.1 hline
      rw [dotenvSpecLine] at hspec
      cases hk : dotenvLineKey l with
      | none =>
        simp only [hk] at hspec
        exact Or.inl (hspec ▸ hl)
      | some key =>
        simp only [hk] at hspec
        cases hlu : (publicValues values schema).lookup key with
        | none =>
          simp only [hlu] at hspec
          exact Or.inl (hspec ▸ hl)
        | some v =>
          simp only [hlu] at hspec
          right
          refine ⟨(key, v), if dotenvExportFlag l then "export " else "",
            mem_of_lookup_eq_some hlu, ?_, hspec.symm⟩
          cases dotenvExportFlag l <;> simp
    · obtain ⟨kv, hkv, hl⟩ := List.mem_map.1 hline
      right
      refine ⟨kv, "", (List.mem_filter.1 hkv).1, Or.inl rfl, ?_⟩
      rw [← hl]
      simp
  · intro entry hentry
    obtain ⟨kv, hkv, he⟩ := List.mem_map.1 hentry
    exact ⟨kv, hkv, he.symm⟩

/-- Claim C9 witness: the amended theorem discharged on the schema with an
internal SECRET — SECRET is not among the written public keys. -/
theorem c9_witness :
    "SECRET" ∉
      (publicValues [("PUBLIC", "a"), ("SECRET", "b")] internalSchema).map
        Prod.fst :=
  (c9_internal_never_written [("PUBLIC", "a"), ("SECRET", "b")]
    internalSchema "SECRET" (by decide)).1

end PyEnvGen
